import Mathlib

/-!
# Ghostloader — shallow embedding and verification

A shallow embedding of `src/index.js` (the Ghostloader preloading engine),
together with theorems settling the specification claims.

Conventions:
* JavaScript strings are Lean `String`s; where character-level parsing is
  needed we work on `String.data : List Char`.
* The WHATWG `URL` platform primitive (used by `normalizeUrl` and
  `shouldPreload`) is modelled by a simplified hierarchical URL parser
  (`parseAbs` / `parseWithBase`): scheme `://` host, path, `?query`,
  `#fragment`.  The model omits percent-encoding, IDNA/host canonicalisation,
  port splitting, scheme lowercasing and dot-segment normalisation; inputs it
  cannot represent parse to `none` (JS would accept some of them).
* DOM state (the result of `document.querySelectorAll`, bounding rectangles,
  `shouldExclude`'s selector/regex matching, SSR hint tags) is an explicit
  environment value `DomEnv` passed to the operations that read the DOM.
* The event loop is a labelled transition relation `Step`; "concurrency" is
  the engine's own counter of in-flight fetches, exactly as in the source.
-/

namespace Ghostloader

/-! ## Model of the WHATWG URL platform primitive -/

/-- Characters the model allows in a scheme (canonical lowercase schemes). -/
def isSchemeChar (c : Char) : Bool := 'a' ≤ c && c ≤ 'z'

/-- Characters the model allows in a host: anything until the first
path/query/fragment delimiter. -/
def isHostChar (c : Char) : Bool := !(c == '/' || c == '?' || c == '#')

/-- A parsed hierarchical URL: `scheme://host path ?query #fragment`. -/
structure URLRec where
  scheme : List Char
  host : List Char
  path : List Char
  query : Option (List Char)
  fragment : Option (List Char)
deriving DecidableEq, Repr

/-- Split a character list at the first occurrence of `ch`: returns the
prefix before it and, when `ch` occurs, the suffix after it. -/
def splitFirst (ch : Char) : List Char → List Char × Option (List Char)
  | [] => ([], none)
  | c :: cs =>
    if c == ch then ([], some cs)
    else
      let r := splitFirst ch cs
      (c :: r.1, r.2)

/-- Assemble path / query / fragment from the remainder `r2` that follows the
host (the empty path serialises as `/`, as the platform URL does). -/
def mkFromPQF (scheme host : List Char) (r2 : List Char) : URLRec :=
  let pf := splitFirst '#' r2
  let pq := splitFirst '?' pf.1
  { scheme := scheme
    host := host
    path := if pq.1 = [] then ['/'] else pq.1
    query := pq.2
    fragment := pf.2 }

/-- Parse an absolute URL of the form `scheme://host...`; `none` on failure. -/
def parseAbs (s : List Char) : Option URLRec :=
  let sch := s.takeWhile isSchemeChar
  match s.drop sch.length with
  | ':' :: '/' :: '/' :: r =>
    if sch = [] then none
    else
      let host := r.takeWhile isHostChar
      if host = [] then none
      else some (mkFromPQF sch host (r.drop host.length))
  | _ => none

/-- The directory part of a path: everything up to and including the last
slash (used for relative-path resolution). -/
def dirOf (p : List Char) : List Char :=
  ((p.reverse).dropWhile (fun c => !(c == '/'))).reverse

/-- Resolution of a non-absolute URL string against `base` (fragment-only,
query-only, absolute-path and relative-path forms). -/
def parseRel (base : URLRec) (s : List Char) : Option URLRec :=
  match s with
  | [] => some { base with fragment := none }
  | '#' :: f => some { base with fragment := some f }
  | '?' :: r =>
    let qf := splitFirst '#' r
    some { base with query := some qf.1, fragment := qf.2 }
  | '/' :: _ => some (mkFromPQF base.scheme base.host s)
  | _ => some (mkFromPQF base.scheme base.host (dirOf base.path ++ s))

/-- Model of `new URL(s, base)`: absolute URLs parse as such, other inputs
resolve against `base`. -/
def parseWithBase (base : URLRec) (s : List Char) : Option URLRec :=
  match parseAbs s with
  | some u => some u
  | none => parseRel base s

/-- Query part of a serialised URL (`?q` when present). -/
def qpart : Option (List Char) → List Char
  | some q => '?' :: q
  | none => []

/-- Fragment part of a serialised URL (`#f` when present). -/
def fpart : Option (List Char) → List Char
  | some f => '#' :: f
  | none => []

/-- Serialise a URL record back to its string form. -/
def serialize (u : URLRec) : List Char :=
  u.scheme ++ [':', '/', '/'] ++ u.host ++ u.path ++ qpart u.query ++ fpart u.fragment

/-- Well-formedness of a parsed URL: what `parseAbs`/`parseWithBase` always
produce, and what makes `serialize` re-parse to the same record. -/
def canonical (u : URLRec) : Bool :=
  !u.scheme.isEmpty && u.scheme.all isSchemeChar &&
  !u.host.isEmpty && u.host.all isHostChar &&
  u.path.head? == some '/' &&
  u.path.all (fun c => !(c == '?' || c == '#')) &&
  (match u.query with | some q => q.all (fun c => !(c == '#')) | none => true)

/-- `normalizeUrl` from the source (`src/index.js` lines 258-267): resolve
against the page location, drop the fragment (`urlObj.hash = ''`), return
`href`; `null` on parse failure. -/
def normalizeUrlL (base : URLRec) (s : List Char) : Option (List Char) :=
  (parseWithBase base s).map (fun u => serialize { u with fragment := none })

/-- String-level wrapper of `normalizeUrlL` (the engine works on JS strings). -/
def normalizeUrl (base : URLRec) (s : String) : Option String :=
  (normalizeUrlL base s.data).map (fun l => { data := l })

/-- A concrete page location used to instantiate theorems with hypotheses. -/
def cwBase : URLRec :=
  { scheme := "http".data, host := "example.com".data, path := "/dir/page".data,
    query := none, fragment := none }

/-! ## Engine data model

The mutable fields of the `Ghostloader` class become an explicit `State`
record; the constructor's `this.config` defaults become `Config` field
defaults. -/

/-- The configuration options read by the modelled operations (constructor
lines 8-55; presentation-only options such as logging flags and delays that
only pace the event loop are omitted). -/
structure Config where
  cacheMode : String := "local"
  maxConcurrent : Nat := 3
  connectionAware : Bool := true
  dataLimit : Nat := 50 * 1024 * 1024
  bandwidthThrottle : Bool := true
  cacheMaxSize : Nat := 100
  cacheExpiration : Nat := 24 * 60 * 60 * 1000
  cacheVersion : String := "1.0"
deriving DecidableEq, Repr

/-- The constructor's default configuration. -/
def defaultConfig : Config := {}

/-- Origin tag of a queue item (its `source` field; DOM-built items carry
no source field). -/
inductive HintSource
  | ssrHint
  | ssrHintJson
deriving DecidableEq, Repr

/-- A queue element (`buildQueue` / `processSSRHints` object literals).
`url` is the result of `normalizeUrl` and may be JS `null` for hint items. -/
structure QueueItem where
  url : Option String
  element : Option Nat
  priority : Int
  timestamp : Nat
  source : Option HintSource
deriving DecidableEq, Repr

/-- The relevant parts of `navigator.connection`. -/
structure ConnInfo where
  effectiveType : String
  saveData : Bool
deriving DecidableEq, Repr

/-- A record of the in-memory fallback cache (`storeInCache`, lines 806-816). -/
structure CacheEntry where
  url : Option String
  content : String
  timestamp : Nat
  version : String
  size : Nat
deriving DecidableEq, Repr

/-- The `this.stats` record. -/
structure Stats where
  totalRequests : Nat
  cacheHits : Nat
  cacheMisses : Nat
  bytesTransferred : Nat
  averageResponseTime : ℚ
  connectionType : String
deriving DecidableEq, Repr

/-- The engine's mutable state.  `cache` is the in-memory fallback backend
(a JS `Map`, modelled as an insertion-ordered association list); `inflight`
is the multiset of `fetchAndCache` invocations whose `finally` handler has
not yet run (the event loop's pending-continuation set). -/
structure State where
  config : Config
  queue : List QueueItem
  processing : List (Option String)
  processed : List (Option String)
  cache : List (Option String × CacheEntry)
  activeRequests : Nat
  dataUsed : Nat
  isPaused : Bool
  inflight : List QueueItem
  ssrHintsReceived : List String
  stats : Stats
  connectionInfo : Option ConnInfo
deriving DecidableEq, Repr

/-- A fresh engine (constructor state) under a given configuration and
detected connection (`detectConnection` records the effective type into
`stats.connectionType`). -/
def initialState (cfg : Config) (ci : Option ConnInfo) : State :=
  { config := cfg, queue := [], processing := [], processed := [], cache := [],
    activeRequests := 0, dataUsed := 0, isPaused := false, inflight := [],
    ssrHintsReceived := [], connectionInfo := ci,
    stats := { totalRequests := 0, cacheHits := 0, cacheMisses := 0,
               bytesTransferred := 0, averageResponseTime := 0,
               connectionType := match ci with
                 | some c =>
                   if c.effectiveType = "" then "unknown" else c.effectiveType
                 | none => "unknown" } }

/-! ## DOM environment

What the engine reads from the page: the result of
`document.querySelectorAll(selector)`, bounding rectangles, the viewport
height, SSR hint tags, and the page location. -/

/-- One element returned by the selector query.  `excluded` is the outcome
of `shouldExclude` (selector and regex matching — platform primitives). -/
structure Link where
  id : Nat
  href : String
  rectTop : Int
  rectBottom : Int
  excluded : Bool
deriving DecidableEq, Repr

/-- A `meta[name="ghostloader-hint"]` tag: `content` and `data-priority`
attributes (`getAttribute` returns `null` when absent). -/
structure MetaHint where
  content : Option String
  dataPriority : Option String
deriving DecidableEq, Repr

/-- One entry of a JSON-LD `ghostloaderHints` array. -/
structure JsonHint where
  url : Option String
  priority : Option Int
deriving DecidableEq, Repr

/-- A JSON-LD script block: `none` when the JSON is invalid or carries no
`ghostloaderHints` array (ignored without failing startup). -/
structure JsonBlock where
  hints : Option (List JsonHint)
deriving DecidableEq, Repr

/-- The DOM state visible to the engine. -/
structure DomEnv where
  base : URLRec
  viewportHeight : Int
  links : List Link
  metaHints : List MetaHint
  jsonBlocks : List JsonBlock
deriving DecidableEq, Repr

/-! ## Set / Map primitives (JS `Set` and `Map` on an association list) -/

/-- JS `Set.add`: insert if absent. -/
def setAdd (s : List (Option String)) (x : Option String) : List (Option String) :=
  if s.contains x then s else x :: s

/-- JS `Map.set`: overwrite in place when the key exists (keeping its
insertion position), else append. -/
def mapSet (m : List (Option String × CacheEntry)) (k : Option String)
    (v : CacheEntry) : List (Option String × CacheEntry) :=
  if m.any (fun p => p.1 == k) then
    m.map (fun p => if p.1 == k then (k, v) else p)
  else m ++ [(k, v)]

/-- JS `Map.delete`. -/
def mapDelete (m : List (Option String × CacheEntry)) (k : Option String) :
    List (Option String × CacheEntry) :=
  m.eraseP (fun p => p.1 == k)

/-- JS `Map.get`. -/
def mapGet (m : List (Option String × CacheEntry)) (k : Option String) :
    Option CacheEntry :=
  (m.find? (fun p => p.1 == k)).map Prod.snd

/-! ## Connection-aware gates -/

/-- `withinDataLimits` (lines 545-558): data-saver mode wins, then the
session data budget. -/
def withinDataLimits (st : State) : Bool :=
  if (match st.connectionInfo with | some ci => ci.saveData | none => false) then
    false
  else if st.config.dataLimit ≤ st.dataUsed then false
  else true

/-- `getEffectiveMaxConcurrent` (lines 564-579): the `connectionLimits`
table, defaulting to `maxConcurrent` for unknown types or when throttling
is off or no connection info is available. -/
def getEffectiveMaxConcurrent (st : State) : Nat :=
  if !st.config.bandwidthThrottle || st.connectionInfo.isNone then
    st.config.maxConcurrent
  else
    match st.connectionInfo with
    | none => st.config.maxConcurrent
    | some ci =>
      if ci.effectiveType = "slow-2g" then 1
      else if ci.effectiveType = "2g" then 1
      else if ci.effectiveType = "3g" then 2
      else if ci.effectiveType = "4g" then st.config.maxConcurrent
      else if ci.effectiveType = "5g" then st.config.maxConcurrent
      else st.config.maxConcurrent

/-! ## URL policy -/

/-- Origin comparison of the model URLs (scheme and host). -/
def sameOrigin (u v : URLRec) : Bool :=
  u.scheme == v.scheme && u.host == v.host

/-- `shouldPreload` (lines 236-251): `new URL(url)` (absolute only;
invalid means `false`), same-origin in `local` mode, anything in
`external` mode. -/
def shouldPreload (st : State) (env : DomEnv) (url : String) : Bool :=
  match parseAbs url.data with
  | some u => if st.config.cacheMode = "local" then sameOrigin u env.base else true
  | none => false

/-! ## Queue building and SSR hints -/

/-- The per-link body of `buildQueue`'s `forEach` (lines 185-222): normalise,
skip processed/processing/excluded/disallowed/over-budget, then keep the
element if its bounding box intersects the viewport vertically. -/
def buildLinkItem (st : State) (env : DomEnv) (now : Nat) (link : Link) :
    Option QueueItem :=
  match normalizeUrl env.base link.href with
  | none => none
  | some href =>
    if st.processed.contains (some href) || st.processing.contains (some href) then
      none
    else if link.excluded then none
    else if !shouldPreload st env href then none
    else if st.config.connectionAware && !withinDataLimits st then none
    else if link.rectTop < env.viewportHeight && link.rectBottom > 0 then
      some { url := some href, element := some link.id,
             priority := link.rectTop, timestamp := now, source := none }
    else none

/-- `buildQueue` (lines 181-229): collect eligible visible links, stable-sort
ascending by priority (`rect.top`; `Array.prototype.sort` is stable, so any
stable sort denotes the same list), and replace the queue wholesale. -/
def buildQueue (st : State) (env : DomEnv) (now : Nat) : State :=
  let linkData := (env.links.filterMap (buildLinkItem st env now)).insertionSort
    (fun a b => a.priority ≤ b.priority)
  { st with queue := linkData }

/-- One `meta[name="ghostloader-hint"]` tag of `processSSRHints`
(lines 631-652): dedup through `ssrHintsReceived`, unshift a priority
`-1000` item when `data-priority` is `high` (JS `||` treats the empty
string as missing). -/
def processMetaHint (base : URLRec) (now : Nat) (st : State) (m : MetaHint) :
    State :=
  match m.content with
  | none => st
  | some url =>
    if url = "" then st
    else if st.ssrHintsReceived.contains url then st
    else
      let st1 := { st with ssrHintsReceived := url :: st.ssrHintsReceived }
      let priority := match m.dataPriority with
        | some p => if p = "" then "normal" else p
        | none => "normal"
      if priority = "high" then
        { st1 with queue :=
            { url := normalizeUrl base url, element := none, priority := -1000,
              timestamp := now, source := some HintSource.ssrHint } :: st1.queue }
      else st1

/-- One JSON-LD hint of `processSSRHints` (lines 660-671). -/
def processJsonHint (base : URLRec) (now : Nat) (st : State) (h : JsonHint) :
    State :=
  match h.url with
  | none => st
  | some url =>
    if url = "" then st
    else if st.ssrHintsReceived.contains url then st
    else
      { st with
        ssrHintsReceived := url :: st.ssrHintsReceived,
        queue :=
          { url := normalizeUrl base url, element := none,
            priority := h.priority.getD 0, timestamp := now,
            source := some HintSource.ssrHintJson } :: st.queue }

/-- One JSON-LD block: malformed blocks are ignored. -/
def processJsonBlock (base : URLRec) (now : Nat) (st : State) (b : JsonBlock) :
    State :=
  match b.hints with
  | none => st
  | some hs => hs.foldl (processJsonHint base now) st

/-- `processSSRHints` (lines 628-681): meta tags first, then JSON-LD blocks,
each in document order. -/
def processSSRHints (st : State) (env : DomEnv) (now : Nat) : State :=
  (env.jsonBlocks.foldl (processJsonBlock env.base now)
    (env.metaHints.foldl (processMetaHint env.base now) st))

/-! ## Hover boost -/

/-- Remove the first element satisfying `p`, returning it and the remainder
in order (`Array.prototype.splice(index, 1)` at the found index). -/
def extractFirst (p : QueueItem → Bool) :
    List QueueItem → Option (QueueItem × List QueueItem)
  | [] => none
  | x :: xs =>
    if p x then some (x, xs)
    else
      match extractFirst p xs with
      | some (y, ys) => some (y, x :: ys)
      | none => none

/-- `boostPriority` (lines 310-323): `findIndex` the URL; when the index is
positive, splice the item out and unshift it, then call `processQueue` —
the returned flag records that a drain attempt was triggered.  An index of
`0` or `-1` is a no-op. -/
def boostPriority (st : State) (url : String) : State × Bool :=
  match st.queue with
  | [] => (st, false)
  | x :: xs =>
    if x.url == some url then (st, false)
    else
      match extractFirst (fun it => it.url == some url) xs with
      | none => (st, false)
      | some (item, rest) => ({ st with queue := item :: x :: rest }, true)

/-! ## Cache manager (in-memory fallback backend) -/

/-- `getCachedResponse` (lines 740-759), memory branch: a present entry is
returned (as a mock response exposing `x-cached-timestamp`). -/
def getCachedResponse (st : State) (url : Option String) : Option CacheEntry :=
  mapGet st.cache url

/-- `isCacheExpired` (lines 766-779): `Date.now() - timestamp` compared to
`cacheExpiration` (memory-backend entries always expose their timestamp). -/
def isCacheExpired (cfg : Config) (now : Nat) (e : CacheEntry) : Bool :=
  decide ((now : Int) - (e.timestamp : Int) > (cfg.cacheExpiration : Int))

/-- The optional metadata argument of `storeInCache`. -/
structure Meta where
  timestamp : Option Nat
  version : Option String
  size : Option Nat
deriving DecidableEq, Repr

/-- JS `x || d` for numbers: `0` and missing are falsy. -/
def orDefaultNat (x : Option Nat) (d : Nat) : Nat :=
  match x with
  | some n => if n = 0 then d else n
  | none => d

/-- JS `x || d` for strings: the empty string and missing are falsy. -/
def orDefaultStr (x : Option String) (d : String) : String :=
  match x with
  | some s => if s = "" then d else s
  | none => d

/-- `enforceCacheLimit` (lines 825-849), memory branch: at or above
`cacheMaxSize`, sort the entries by timestamp ascending (JS stable sort) and
delete the first `count - max + 10` of them. -/
def enforceCacheLimit (cfg : Config)
    (cache : List (Option String × CacheEntry)) :
    List (Option String × CacheEntry) :=
  if cfg.cacheMaxSize ≤ cache.length then
    let entries := cache.insertionSort (fun a b => a.2.timestamp ≤ b.2.timestamp)
    let toRemove := entries.take (cache.length - cfg.cacheMaxSize + 10)
    toRemove.foldl (fun m p => mapDelete m p.1) cache
  else cache

/-- `storeInCache` (lines 787-820), memory branch: enforce the size cap,
then store `{url, content, timestamp, version, size}` (metadata defaults
via JS `||`, so a missing or zero size falls back to `content.length` and a
missing timestamp to `Date.now()`). -/
def cacheEntryOf (cfg : Config) (url : Option String) (content : String)
    (meta : Meta) (now : Nat) : CacheEntry :=
  { url := url, content := content,
    timestamp := orDefaultNat meta.timestamp now,
    version := orDefaultStr meta.version cfg.cacheVersion,
    size := orDefaultNat meta.size content.length }

def storeInCache (cfg : Config) (cache : List (Option String × CacheEntry))
    (url : Option String) (content : String) (meta : Meta) (now : Nat) :
    List (Option String × CacheEntry) :=
  mapSet (enforceCacheLimit cfg cache) url (cacheEntryOf cfg url content meta now)

/-- The state after `storeInCache` ran against the engine's cache. -/
def afterStore (st : State) (url : Option String) (body : String) (meta : Meta)
    (now : Nat) : State :=
  { st with cache := storeInCache st.config st.cache url body meta now }

/-! ## Fetch pipeline -/

/-- What the network returns for a dispatched fetch: HTTP success with an
optional `content-length` and a body, HTTP failure (non-OK status), or a
thrown error (network failure / timeout abort). -/
inductive FetchOutcome
  | httpOk (contentLength : Option Nat) (body : String)
  | httpFail
  | netError
deriving DecidableEq, Repr

/-- The running-average update of `fetchAndCache` (lines 432-434), performed
with `totalRequests` already incremented. -/
def updateAvg (stats : Stats) (rt : ℚ) : Stats :=
  { stats with averageResponseTime :=
      (stats.averageResponseTime * ((stats.totalRequests : ℚ) - 1) + rt) /
        (stats.totalRequests : ℚ) }

/-- The network part of `fetchAndCache` (lines 385-434): on HTTP OK, track
data usage from `content-length`, store the response with metadata, bump
miss/bytes stats and the average; on non-OK only the average updates; on a
thrown error (timeout / network) nothing after the `fetch` runs. -/
def fetchNetwork (st : State) (item : QueueItem) (now : Nat)
    (outcome : FetchOutcome) (rt : ℚ) : State :=
  match outcome with
  | FetchOutcome.httpOk len body =>
    { st with
      dataUsed := match len with | some n => st.dataUsed + n | none => st.dataUsed,
      cache := storeInCache st.config st.cache item.url body
        { timestamp := some now, version := some st.config.cacheVersion,
          size := some (len.getD 0) } now,
      stats := updateAvg
        { st.stats with
          cacheMisses := st.stats.cacheMisses + 1,
          bytesTransferred := st.stats.bytesTransferred + len.getD 0 } rt }
  | FetchOutcome.httpFail => { st with stats := updateAvg st.stats rt }
  | FetchOutcome.netError => st

/-- The `this.stats.totalRequests++` at the top of `fetchAndCache` (line 375). -/
def bumpTotalRequests (st : State) : State :=
  { st with stats :=
    { st.stats with totalRequests := st.stats.totalRequests + 1 } }

/-- `fetchAndCache` (lines 369-443): count the request, serve a fresh cache
entry as a hit, otherwise hit the network. -/
def fetchAndCacheRun (st : State) (item : QueueItem) (now : Nat)
    (outcome : FetchOutcome) (rt : ℚ) : State :=
  match getCachedResponse (bumpTotalRequests st) item.url with
  | some e =>
    if !isCacheExpired (bumpTotalRequests st).config now e then
      { bumpTotalRequests st with stats :=
        { (bumpTotalRequests st).stats with
          cacheHits := (bumpTotalRequests st).stats.cacheHits + 1 } }
    else fetchNetwork (bumpTotalRequests st) item now outcome rt
  | none => fetchNetwork (bumpTotalRequests st) item now outcome rt

/-- The `finally` handler of a dispatched fetch (lines 351-361): leave
`processing`, enter `processed` permanently, release the concurrency slot. -/
def completeItem (st : State) (item : QueueItem) : State :=
  { st with
    processing := st.processing.eraseP (fun u => u == item.url),
    processed := setAdd st.processed item.url,
    activeRequests := st.activeRequests - 1 }

/-! ## Scheduler -/

/-- Outcome of one iteration of the `processQueue` while-loop. -/
inductive DrainRes
  | dispatched (item : QueueItem) (st : State)
  | skipped (st : State)
  | broke (st : State)
deriving DecidableEq, Repr

/-- One iteration of `processQueue`'s drain loop (lines 328-363): loop guard
(non-empty queue and a free slot under the effective cap), `shift()` the
head, skip items already processing/processed, stop on an exhausted data
budget (the shifted item is dropped either way), otherwise mark processing,
take a slot and issue the fetch.  Note the loop never consults `isPaused`:
that flag is written by `pause`/`resume` but read nowhere in the source. -/
def processQueueIter (st : State) : Option DrainRes :=
  match st.queue with
  | [] => none
  | item :: rest =>
    if st.activeRequests < getEffectiveMaxConcurrent st then
      if st.processing.contains item.url || st.processed.contains item.url then
        some (DrainRes.skipped { st with queue := rest })
      else if st.config.connectionAware && !withinDataLimits st then
        some (DrainRes.broke { st with queue := rest })
      else
        some (DrainRes.dispatched item
          { st with queue := rest, processing := setAdd st.processing item.url,
                    activeRequests := st.activeRequests + 1,
                    inflight := item :: st.inflight })
    else none

/-- `pause` (lines 1001-1004). -/
def pause (st : State) : State := { st with isPaused := true }

/-- `resume` (lines 1009-1013); the `processQueue` call it makes is taken as
subsequent drain steps. -/
def resume (st : State) : State := { st with isPaused := false }

/-- `clearCache` (lines 971-996): empty the cache backend, the processed and
processing sets and the queue, and reset the data budget. -/
def clearCache (st : State) : State :=
  { st with cache := [], processed := [], processing := [], queue := [],
            dataUsed := 0 }

/-- Observable transitions of the engine's event loop. -/
inductive Label
  | dispatch (item : QueueItem)
  | drainSkip
  | drainBreak
  | complete (item : QueueItem) (now : Nat) (outcome : FetchOutcome) (rt : ℚ)
  | build (env : DomEnv) (now : Nat)
  | hints (env : DomEnv) (now : Nat)
  | boost (url : String)
  | pauseStep
  | resumeStep

/-- Small-step semantics of the engine: drain-loop iterations, completion of
an in-flight fetch, queue rebuilds, SSR hint ingestion, hover boosts and
pause/resume.  (`clearCache`/`destroy` are explicit external resets and are
modelled as standalone functions.) -/
def stepFn (st : State) : Label → Option State
  | Label.dispatch item =>
    match processQueueIter st with
    | some (DrainRes.dispatched i st1) => if i = item then some st1 else none
    | _ => none
  | Label.drainSkip =>
    match processQueueIter st with
    | some (DrainRes.skipped st1) => some st1
    | _ => none
  | Label.drainBreak =>
    match processQueueIter st with
    | some (DrainRes.broke st1) => some st1
    | _ => none
  | Label.complete item now outcome rt =>
    if st.inflight.contains item then
      some (completeItem
        (fetchAndCacheRun { st with inflight := st.inflight.erase item }
          item now outcome rt) item)
    else none
  | Label.build env now => some (buildQueue st env now)
  | Label.hints env now => some (processSSRHints st env now)
  | Label.boost url => some (boostPriority st url).1
  | Label.pauseStep => some (pause st)
  | Label.resumeStep => some (resume st)

/-- A single labelled step. -/
def Step (st : State) (l : Label) (st' : State) : Prop := stepFn st l = some st'

/-- A labelled run of the engine. -/
inductive Steps : State → List Label → State → Prop
  | nil (st : State) : Steps st [] st
  | cons {st st1 st2 : State} {l : Label} {ls : List Label} :
      Step st l st1 → Steps st1 ls st2 → Steps st (l :: ls) st2

/-! ## Statistics (`getStats`, lines 909-966) -/

/-- JS number results of the percentage computation: the finite case plus
the `NaN`/`Infinity` values `0/0` and `x/0` produce. -/
inductive JSNum
  | nan
  | posInf
  | negInf
  | fin (q : ℚ)
deriving DecidableEq, Repr

/-- JS division of finite numbers: division by zero yields `NaN` for `0/0`
and a signed infinity otherwise. -/
def jsDiv (a b : ℚ) : JSNum :=
  if b = 0 then
    if a = 0 then JSNum.nan else if a > 0 then JSNum.posInf else JSNum.negInf
  else JSNum.fin (a / b)

/-- JS multiplication of the division result by `100`. -/
def jsMul100 : JSNum → JSNum
  | JSNum.nan => JSNum.nan
  | JSNum.posInf => JSNum.posInf
  | JSNum.negInf => JSNum.negInf
  | JSNum.fin q => JSNum.fin (q * 100)

/-- Two-digit fixed-point rendering of a finite value (decimal rounding;
binary-float artifacts of the platform `toFixed` are not modelled). -/
def fixed2 (q : ℚ) : String :=
  let scaled : Int := if 0 ≤ q then ⌊q * 100 + 1 / 2⌋ else -⌊-q * 100 + 1 / 2⌋
  let sign := if scaled < 0 then "-" else ""
  let a := scaled.natAbs
  sign ++ toString (a / 100) ++ "." ++
    (if a % 100 < 10 then "0" else "") ++ toString (a % 100)

/-- `Number.prototype.toFixed(2)` on the percentage value. -/
def jsToFixed2 : JSNum → String
  | JSNum.nan => "NaN"
  | JSNum.posInf => "Infinity"
  | JSNum.negInf => "-Infinity"
  | JSNum.fin q => fixed2 q

/-- The `dataUsagePercent` field of `getStats` (line 938):
`((dataUsed / dataLimit) * 100).toFixed(2) + '%'`. -/
def dataUsagePercent (st : State) : String :=
  jsToFixed2 (jsMul100 (jsDiv (st.dataUsed : ℚ) (st.config.dataLimit : ℚ))) ++ "%"

/-! ## Concrete fixtures for witnesses and counterexamples -/

/-- A DOM-sourced queue item fixture. -/
def mkItem (u : String) (pr : Int) : QueueItem :=
  { url := some u, element := none, priority := pr, timestamp := 0, source := none }

/-- The C1 scenario: one `high`-priority meta hint for `/a` and two visible
on-page links below it. -/
def c1Env : DomEnv :=
  { base := cwBase, viewportHeight := 800,
    links := [ { id := 1, href := "/b", rectTop := 100, rectBottom := 120,
                 excluded := false },
               { id := 2, href := "/c", rectTop := 300, rectBottom := 320,
                 excluded := false } ],
    metaHints := [ { content := some "/a", dataPriority := some "high" } ],
    jsonBlocks := [] }

/-- C1 scenario state after SSR-hint ingestion at startup. -/
def c1AfterHints : State := processSSRHints (initialState defaultConfig none) c1Env 5

/-- C1 scenario state after the initial queue build. -/
def c1AfterBuild : State := buildQueue c1AfterHints c1Env 10

/-- A queue holding the same URL at positions 0 and 2 (duplicates are
reachable, e.g. two hint spellings normalising to one URL). -/
def c5DupState : State :=
  { initialState defaultConfig none with
    queue := [mkItem "http://example.com/a" 1, mkItem "http://example.com/b" 2,
              mkItem "http://example.com/a" 3] }

/-- A queue where the boosted URL sits at position 1. -/
def c5TailState : State :=
  { initialState defaultConfig none with
    queue := [mkItem "http://example.com/b" 1, mkItem "http://example.com/a" 2] }

/-- A cache entry fixture. -/
def ce (t : Nat) (k : String) : Option String × CacheEntry :=
  (some k, { url := some k, content := "x", timestamp := t, version := "1.0",
             size := 1 })

/-- Five cache entries with ascending timestamps. -/
def cache5 : List (Option String × CacheEntry) :=
  [ce 1 "a", ce 2 "b", ce 3 "c", ce 4 "d", ce 5 "e"]

/-- A configuration with `cacheMaxSize = 5`. -/
def cfgMax5 : Config := { defaultConfig with cacheMaxSize := 5 }

/-- A paused engine with a pending queue item and a free slot. -/
def c7Paused : State :=
  pause { initialState defaultConfig none with
          queue := [mkItem "http://example.com/x" 1] }

/-- A configuration with a zero data limit. -/
def cfgZeroData : Config := { defaultConfig with dataLimit := 0 }

instance : IsTotal (Option String × CacheEntry)
    (fun a b => a.2.timestamp ≤ b.2.timestamp) :=
  ⟨fun x y => Nat.le_total x.2.timestamp y.2.timestamp⟩

instance : IsTrans (Option String × CacheEntry)
    (fun a b => a.2.timestamp ≤ b.2.timestamp) :=
  ⟨fun _ _ _ h1 h2 => Nat.le_trans h1 h2⟩

/-- Agreement of two states on everything except the queue and the
hint-dedup set — what the passive steps (rebuild, hints, boost, pause,
resume, drain skip/stop) leave untouched. -/
def SameCore (a b : State) : Prop :=
  a.processed = b.processed ∧ a.processing = b.processing ∧
  a.dataUsed = b.dataUsed ∧ a.inflight = b.inflight ∧
  a.activeRequests = b.activeRequests ∧ a.config = b.config ∧
  a.connectionInfo = b.connectionInfo ∧ a.cache = b.cache ∧
  a.stats = b.stats

/-- C4 witness fixture: an engine with one processed URL and one queued link. -/
def c4Start : State :=
  { initialState defaultConfig none with
    processed := [some "http://example.com/p"],
    queue := [mkItem "http://example.com/b" 1] }

/-- C4 witness fixture: `c4Start` after dispatching its queued link. -/
def c4After : State :=
  { c4Start with
    queue := [],
    processing := setAdd c4Start.processing (some "http://example.com/b"),
    activeRequests := c4Start.activeRequests + 1,
    inflight := [mkItem "http://example.com/b" 1] }

/-! ### Auxiliary lemmas on `splitFirst`, `takeWhile`, `dirOf` -/

theorem splitFirst_fst_not_mem (ch : Char) (l : List Char) :
    ch ∉ (splitFirst ch l).1 := by
  induction l with
  | nil => simp [splitFirst]
  | cons c cs ih =>
    by_cases h : c = ch
    · simp [splitFirst, h]
    · simpa [splitFirst, h, Ne.symm h] using ih

theorem splitFirst_eq (ch : Char) (l : List Char) :
    l = (splitFirst ch l).1 ++
      (match (splitFirst ch l).2 with | some r => ch :: r | none => []) := by
  induction l with
  | nil => simp [splitFirst]
  | cons c cs ih =>
    by_cases h : c = ch
    · simp [splitFirst, h]
    · simpa [splitFirst, h] using ih

theorem splitFirst_of_not_mem {ch : Char} {l : List Char} (h : ch ∉ l) :
    splitFirst ch l = (l, none) := by
  induction l with
  | nil => simp [splitFirst]
  | cons c cs ih =>
    simp only [List.mem_cons, not_or] at h
    simp [splitFirst, Ne.symm h.1, ih h.2]

theorem splitFirst_append {ch : Char} {b : List Char} (r : List Char)
    (h : ch ∉ b) : splitFirst ch (b ++ ch :: r) = (b, some r) := by
  induction b with
  | nil => simp [splitFirst]
  | cons c cs ih =>
    simp only [List.mem_cons, not_or] at h
    simp [splitFirst, Ne.symm h.1, ih h.2]

theorem splitFirst_fst_subset {ch : Char} {l : List Char} {c : Char}
    (h : c ∈ (splitFirst ch l).1) : c ∈ l := by
  induction l with
  | nil => simp [splitFirst] at h
  | cons x xs ih =>
    by_cases hx : x = ch
    · simp [splitFirst, hx] at h
    · rcases List.mem_cons.mp (by simpa [splitFirst, hx] using h) with h1 | h2
      · subst h1; exact List.mem_cons_self _ _
      · exact List.mem_cons_of_mem _ (ih h2)

theorem splitFirst_snd_subset {ch : Char} {l r : List Char} {c : Char}
    (hr : (splitFirst ch l).2 = some r) (h : c ∈ r) : c ∈ l := by
  induction l with
  | nil => simp [splitFirst] at hr
  | cons x xs ih =>
    by_cases hx : x = ch
    · subst hx
      simp only [splitFirst, beq_self_eq_true, if_true, Option.some.injEq] at hr
      subst hr
      exact List.mem_cons_of_mem _ h
    · exact List.mem_cons_of_mem _
        (ih (by simpa [splitFirst, hx] using hr))

theorem splitFirst_fst_head {ch : Char} {l : List Char} {c : Char}
    (h : (splitFirst ch l).1.head? = some c) : l.head? = some c := by
  have he := splitFirst_eq ch l
  cases hf : (splitFirst ch l).1 with
  | nil => simp [hf] at h
  | cons x xs =>
    simp only [hf, List.head?_cons, Option.some.injEq] at h
    rw [he, hf]
    simp [h]

theorem takeWhile_append_not {p : Char → Bool} {a : List Char} (x : Char)
    (r : List Char) (ha : ∀ c ∈ a, p c = true) (hx : p x = false) :
    (a ++ x :: r).takeWhile p = a := by
  induction a with
  | nil => simp [List.takeWhile, hx]
  | cons c cs ih =>
    have hc : p c = true := ha c (List.mem_cons_self c cs)
    simp only [List.cons_append, List.takeWhile_cons, hc, if_true]
    simp only [List.cons.injEq, true_and]
    exact ih (fun d hd => ha d (List.mem_cons_of_mem c hd))

theorem drop_length_takeWhile (p : Char → Bool) (l : List Char) :
    l.drop (l.takeWhile p).length = l.dropWhile p := by
  induction l with
  | nil => simp
  | cons c cs ih =>
    by_cases h : p c
    · simpa [List.takeWhile_cons, List.dropWhile_cons, h] using ih
    · simp [List.takeWhile_cons, List.dropWhile_cons, h]

theorem head_dropWhile_not {p : Char → Bool} {l : List Char} {c : Char}
    (h : (l.dropWhile p).head? = some c) : p c = false := by
  induction l with
  | nil => simp at h
  | cons x xs ih =>
    by_cases hx : p x
    · exact ih (by simpa [List.dropWhile_cons, hx] using h)
    · rw [List.dropWhile_cons, if_neg hx] at h
      simp only [List.head?_cons, Option.some.injEq] at h
      subst h
      simpa using hx

theorem mem_takeWhile {p : Char → Bool} {l : List Char} {c : Char}
    (h : c ∈ l.takeWhile p) : p c = true := by
  induction l with
  | nil => simp at h
  | cons x xs ih =>
    by_cases hx : p x
    · rcases (by simpa [List.takeWhile_cons, hx] using h : c = x ∨ c ∈ xs.takeWhile p) with h1 | h2
      · subst h1; exact hx
      · exact ih h2
    · simp [List.takeWhile_cons, hx] at h

theorem isHostChar_false_cases {c : Char} (h : isHostChar c = false) :
    c = '/' ∨ c = '?' ∨ c = '#' := by
  simp only [isHostChar, Bool.not_eq_false', Bool.or_eq_true, beq_iff_eq] at h
  tauto

theorem getLast_dropWhile_concat (a : List Char) :
    (((a ++ ['/']).dropWhile (fun c => !(c == '/'))).getLast?) = some '/' := by
  induction a with
  | nil => simp [List.dropWhile_cons]
  | cons x xs ih =>
    by_cases hx : x = '/'
    · subst hx
      rw [List.cons_append, List.dropWhile_cons]
      simp only [beq_self_eq_true, Bool.not_true, if_false]
      rw [show ('/' : Char) :: (xs ++ ['/']) = ('/' :: xs) ++ ['/'] from rfl]
      exact List.getLast?_concat _
    · simpa [List.dropWhile_cons, hx] using ih

theorem dirOf_head {p : List Char} (hp : p.head? = some '/') :
    (dirOf p).head? = some '/' := by
  cases p with
  | nil => simp at hp
  | cons c cs =>
    simp only [List.head?_cons, Option.some.injEq] at hp
    subst hp
    unfold dirOf
    rw [List.head?_reverse, List.reverse_cons]
    exact getLast_dropWhile_concat cs.reverse

theorem dirOf_subset {p : List Char} {c : Char} (h : c ∈ dirOf p) : c ∈ p := by
  unfold dirOf at h
  rw [List.mem_reverse] at h
  exact List.mem_reverse.mp ((List.dropWhile_sublist _).mem h)

/-! ### Canonicality of parser outputs and the serialise round-trip -/

theorem canonical_iff {u : URLRec} :
    canonical u = true ↔
      (u.scheme ≠ [] ∧ (∀ c ∈ u.scheme, isSchemeChar c = true)) ∧
      (u.host ≠ [] ∧ (∀ c ∈ u.host, isHostChar c = true)) ∧
      u.path.head? = some '/' ∧
      (∀ c ∈ u.path, c ≠ '?' ∧ c ≠ '#') ∧
      (∀ q, u.query = some q → ∀ c ∈ q, c ≠ '#') := by
  obtain ⟨sch, host, path, q, f⟩ := u
  cases q <;>
    simp [canonical, Bool.and_eq_true, Bool.not_eq_true', List.all_eq_true,
      List.isEmpty_iff, beq_iff_eq, not_or, and_assoc]

theorem canonical_set_fragment (u : URLRec) (f : Option (List Char)) :
    canonical { u with fragment := f } = canonical u := rfl

theorem mkFromPQF_canonical {sch host : List Char} (r2 : List Char)
    (h1 : sch ≠ []) (h2 : ∀ c ∈ sch, isSchemeChar c = true)
    (h3 : host ≠ []) (h4 : ∀ c ∈ host, isHostChar c = true)
    (h5 : ∀ c, r2.head? = some c → isHostChar c = false) :
    canonical (mkFromPQF sch host r2) = true := by
  have hpf_nm := splitFirst_fst_not_mem '#' r2
  have hpq_nm := splitFirst_fst_not_mem '?' (splitFirst '#' r2).1
  have hsub : ∀ c, c ∈ (splitFirst '?' (splitFirst '#' r2).1).1 →
      c ∈ (splitFirst '#' r2).1 := fun _ hc => splitFirst_fst_subset hc
  rw [canonical_iff]
  simp only [mkFromPQF]
  refine ⟨⟨h1, h2⟩, ⟨h3, h4⟩, ?_, ?_, ?_⟩
  · by_cases hp : (splitFirst '?' (splitFirst '#' r2).1).1 = []
    · simp [hp]
    · obtain ⟨c0, rest, hc0⟩ := List.exists_cons_of_ne_nil hp
      have hmem : c0 ∈ (splitFirst '?' (splitFirst '#' r2).1).1 := by
        rw [hc0]; exact List.mem_cons_self _ _
      have hcq : c0 ≠ '?' := fun h => hpq_nm (h ▸ hmem)
      have hcf : c0 ≠ '#' := fun h => hpf_nm (h ▸ hsub c0 hmem)
      have hh1 : (splitFirst '?' (splitFirst '#' r2).1).1.head? = some c0 := by
        rw [hc0]; rfl
      have hh2 := splitFirst_fst_head hh1
      have hh3 := splitFirst_fst_head hh2
      have := isHostChar_false_cases (h5 c0 hh3)
      have hc0 : c0 = '/' := by tauto
      simp [if_neg hp, hh1, hc0]
  · intro c hc
    by_cases hp : (splitFirst '?' (splitFirst '#' r2).1).1 = []
    · rw [if_pos hp] at hc
      simp only [List.mem_singleton] at hc
      subst hc
      exact ⟨by decide, by decide⟩
    · rw [if_neg hp] at hc
      exact ⟨fun h => hpq_nm (h ▸ hc), fun h => hpf_nm (h ▸ hsub c hc)⟩
  · intro q hq c hcq hc
    subst hc
    exact hpf_nm (splitFirst_snd_subset hq hcq)

theorem parseAbs_canonical {s : List Char} {u : URLRec}
    (h : parseAbs s = some u) : canonical u = true := by
  simp only [parseAbs] at h
  split at h
  · split_ifs at h with hsch hhost
    injection h with h
    subst h
    apply mkFromPQF_canonical
    · exact hsch
    · exact fun c hc => mem_takeWhile hc
    · exact hhost
    · exact fun c hc => mem_takeWhile hc
    · intro c hc
      rw [drop_length_takeWhile] at hc
      exact head_dropWhile_not hc
  · exact absurd h (by simp)

theorem parseRel_canonical {base : URLRec} (hb : canonical base = true)
    {s : List Char} {u : URLRec} (h : parseRel base s = some u) :
    canonical u = true := by
  obtain ⟨⟨hb1, hb2⟩, ⟨hb3, hb4⟩, hb5, hb6, hb7⟩ := canonical_iff.mp hb
  simp only [parseRel] at h
  split at h <;> injection h with h <;> subst h
  · rwa [canonical_set_fragment]
  · rwa [canonical_set_fragment]
  · rw [canonical_iff]
    refine ⟨⟨hb1, hb2⟩, ⟨hb3, hb4⟩, hb5, hb6, ?_⟩
    intro q hq c hc
    simp only [Option.some.injEq] at hq
    subst hq
    exact fun he => splitFirst_fst_not_mem '#' _ (he ▸ hc)
  · apply mkFromPQF_canonical _ hb1 hb2 hb3 hb4
    intro c hc
    simp only [List.head?_cons, Option.some.injEq] at hc
    subst hc
    decide
  · apply mkFromPQF_canonical _ hb1 hb2 hb3 hb4
    intro c hc
    have hd : (dirOf base.path).head? = some '/' := dirOf_head hb5
    have hne : dirOf base.path ≠ [] := by
      intro he; rw [he] at hd; exact absurd hd (by simp)
    rw [List.head?_append_of_ne_nil _ hne, hd] at hc
    injection hc with hc
    subst hc
    decide

theorem parseWithBase_canonical {base : URLRec} (hb : canonical base = true)
    {s : List Char} {u : URLRec} (h : parseWithBase base s = some u) :
    canonical u = true := by
  unfold parseWithBase at h
  cases habs : parseAbs s with
  | some v =>
    rw [habs] at h
    injection h with h
    subst h
    exact parseAbs_canonical habs
  | none =>
    rw [habs] at h
    exact parseRel_canonical hb h

theorem mkFromPQF_reassemble (sch host : List Char) {path : List Char}
    (q f : Option (List Char)) (hpath : path ≠ [])
    (h6 : ∀ c ∈ path, c ≠ '?' ∧ c ≠ '#')
    (h7 : ∀ qq, q = some qq → ∀ c ∈ qq, c ≠ '#') :
    mkFromPQF sch host (path ++ (qpart q ++ fpart f)) = ⟨sch, host, path, q, f⟩ := by
  have hnq : '?' ∉ path := fun hm => (h6 _ hm).1 rfl
  have hnf : '#' ∉ path := fun hm => (h6 _ hm).2 rfl
  cases q with
  | none =>
    cases f with
    | none =>
      simp [mkFromPQF, qpart, fpart, splitFirst_of_not_mem hnf,
        splitFirst_of_not_mem hnq, if_neg hpath]
    | some fr =>
      simp [mkFromPQF, qpart, fpart, splitFirst_append fr hnf,
        splitFirst_of_not_mem hnq, if_neg hpath]
  | some qq =>
    have hq : '#' ∉ ('?' :: qq : List Char) := by
      intro hm
      rcases List.mem_cons.mp hm with hm | hm
      · exact absurd hm (by decide)
      · exact (h7 qq rfl '#' hm) rfl
    have hnfq : '#' ∉ path ++ '?' :: qq := by
      intro hm
      rcases List.mem_append.mp hm with hm | hm
      · exact hnf hm
      · exact hq hm
    cases f with
    | none =>
      have hre : path ++ (qpart (some qq) ++ fpart none) = path ++ '?' :: qq := by
        simp [qpart, fpart]
      rw [hre]
      simp [mkFromPQF, splitFirst_of_not_mem hnfq, splitFirst_append qq hnq,
        if_neg hpath]
    | some fr =>
      have harr : (path ++ '?' :: qq) ++ '#' :: fr =
          path ++ (qpart (some qq) ++ fpart (some fr)) := by
        simp [qpart, fpart, List.append_assoc]
      have h1 : splitFirst '#' (path ++ (qpart (some qq) ++ fpart (some fr))) =
          (path ++ '?' :: qq, some fr) := by
        rw [← harr]
        exact splitFirst_append fr hnfq
      simp [mkFromPQF, h1, splitFirst_append qq hnq, if_neg hpath]

theorem parseAbs_serialize {u : URLRec} (h : canonical u = true) :
    parseAbs (serialize u) = some u := by
  obtain ⟨sch, host, path, q, f⟩ := u
  obtain ⟨⟨h1, h2⟩, ⟨h3, h4⟩, h5, h6, h7⟩ := canonical_iff.mp h
  simp only at h1 h2 h3 h4 h5 h6 h7
  obtain ⟨pt, rfl⟩ : ∃ pt, path = '/' :: pt := by
    cases path with
    | nil => simp at h5
    | cons c cs =>
      simp only [List.head?_cons, Option.some.injEq] at h5
      exact ⟨cs, by rw [h5]⟩
  have hser : serialize ⟨sch, host, '/' :: pt, q, f⟩ =
      sch ++ ':' :: '/' :: '/' :: (host ++ '/' :: (pt ++ (qpart q ++ fpart f))) := by
    simp [serialize, List.append_assoc]
  rw [hser]
  simp only [parseAbs]
  have htw : List.takeWhile isSchemeChar
      (sch ++ ':' :: '/' :: '/' :: (host ++ '/' :: (pt ++ (qpart q ++ fpart f)))) =
      sch := takeWhile_append_not ':' _ h2 (by decide)
  rw [htw, List.drop_left]
  have htwh : List.takeWhile isHostChar
      (host ++ '/' :: (pt ++ (qpart q ++ fpart f))) = host :=
    takeWhile_append_not '/' _ h4 (by decide)
  simp only [htwh, List.drop_left, if_neg h1, if_neg h3, Option.some.injEq]
  have hre : mkFromPQF sch host (('/' :: pt) ++ (qpart q ++ fpart f)) =
      ⟨sch, host, '/' :: pt, q, f⟩ :=
    mkFromPQF_reassemble sch host q f (by simp) h6 h7
  rw [show ('/' :: pt) ++ (qpart q ++ fpart f) =
    '/' :: (pt ++ (qpart q ++ fpart f)) from rfl] at hre
  exact hre

theorem normalizeUrlL_spec {base : URLRec} (hb : canonical base = true)
    {s r : List Char} (h : normalizeUrlL base s = some r) :
    (∃ v, parseAbs r = some v ∧ v.fragment = none) ∧
      normalizeUrlL base r = some r := by
  unfold normalizeUrlL at h ⊢
  cases hp : parseWithBase base s with
  | none => rw [hp] at h; exact absurd h (by simp)
  | some u =>
    rw [hp] at h
    simp only [Option.map_some'] at h
    injection h with h
    subst h
    have hcu' : canonical { u with fragment := none } = true := by
      rw [canonical_set_fragment]
      exact parseWithBase_canonical hb hp
    have habs : parseAbs (serialize { u with fragment := none }) =
        some { u with fragment := none } := parseAbs_serialize hcu'
    refine ⟨⟨_, habs, rfl⟩, ?_⟩
    have hpw : parseWithBase base (serialize { u with fragment := none }) =
        some { u with fragment := none } := by
      unfold parseWithBase
      rw [habs]
    rw [hpw]
    rfl

/-- C9: `normalizeUrl` either returns `null` or an absolute URL with an empty
fragment, and it is idempotent on its non-null outputs. -/
theorem C9_normalizeUrl_spec {base : URLRec} (hb : canonical base = true)
    (s r : String) (h : normalizeUrl base s = some r) :
    (∃ v, parseAbs r.data = some v ∧ v.fragment = none) ∧
      normalizeUrl base r = some r := by
  unfold normalizeUrl at h ⊢
  cases hl : normalizeUrlL base s.data with
  | none => rw [hl] at h; exact absurd h (by simp)
  | some l =>
    rw [hl] at h
    simp only [Option.map_some'] at h
    injection h with h
    obtain ⟨hA, hI⟩ := normalizeUrlL_spec hb hl
    subst h
    exact ⟨hA, by rw [show ({ data := l } : String).data = l from rfl, hI]; rfl⟩

/-! ### C10 — clearCache resets session state, stats and config untouched -/

/-- C10: `clearCache` empties the cache, the queue and the processing and
processed sets, resets `dataUsed` to `0`, and leaves the stats record and
the configuration unchanged. -/
theorem C10_clearCache_frame (st : State) :
    (clearCache st).cache = [] ∧ (clearCache st).queue = [] ∧
    (clearCache st).processing = [] ∧ (clearCache st).processed = [] ∧
    (clearCache st).dataUsed = 0 ∧
    (clearCache st).stats = st.stats ∧ (clearCache st).config = st.config :=
  ⟨rfl, rfl, rfl, rfl, rfl, rfl, rfl⟩

/-! ### C7 — the pause flag is never consulted by the drain loop -/

/-- C7 (code bug): in a paused engine with a queued item and a free slot the
drain loop still dispatches — `isPaused` is written by `pause`/`resume` but
read nowhere, so pausing does not suppress dispatch. -/
theorem C7_pause_ignored_by_dispatch :
    c7Paused.isPaused = true ∧
    (stepFn c7Paused (Label.dispatch (mkItem "http://example.com/x" 1))).isSome
      = true := by decide

/-! ### C5 — hover boost semantics -/

theorem extractFirst_of_forall_not {p : QueueItem → Bool} {l : List QueueItem}
    (h : ∀ it ∈ l, p it = false) : extractFirst p l = none := by
  induction l with
  | nil => rfl
  | cons x xs ih =>
    have hx := h x (List.mem_cons_self _ _)
    have ihx := ih (fun it hit => h it (List.mem_cons_of_mem _ hit))
    simp [extractFirst, hx, ihx]

theorem extractFirst_append {p : QueueItem → Bool} {xs : List QueueItem}
    (item : QueueItem) (l₂ : List QueueItem)
    (hxs : ∀ it ∈ xs, p it = false) (hi : p item = true) :
    extractFirst p (xs ++ item :: l₂) = some (item, xs ++ l₂) := by
  induction xs with
  | nil => simp [extractFirst, hi]
  | cons x xs ih =>
    have hx := hxs x (List.mem_cons_self _ _)
    have ihx := ih (fun it hit => hxs it (List.mem_cons_of_mem _ hit))
    simp [extractFirst, hx, ihx]

/-- C5 counterexample: with the boosted URL present both at the head and at
position 2, the URL is in the queue at a position `k > 0`, yet
`boostPriority` is a no-op and triggers no drain (the claim as stated
promises a drain trigger for any such `k`). -/
theorem C5_boost_counterexample :
    (c5DupState.queue.get? 2).map QueueItem.url = some (some "http://example.com/a")
      ∧ boostPriority c5DupState "http://example.com/a" = (c5DupState, false) := by
  decide

/-- C5 (amended: `k` is the position of the first occurrence, as located by
`findIndex`): a first occurrence at `k > 0` moves to position 0, the
relative order of the remaining items is unchanged, and a drain attempt is
triggered; a URL that is absent or whose first occurrence is at the head is
a no-op. -/
theorem C5_boostPriority_spec (st : State) (u : String) :
    ((∀ it ∈ st.queue, it.url ≠ some u) → boostPriority st u = (st, false)) ∧
    (st.queue.head?.map QueueItem.url = some (some u) →
      boostPriority st u = (st, false)) ∧
    (∀ l₁ item l₂, st.queue = l₁ ++ item :: l₂ → l₁ ≠ [] →
      (∀ it ∈ l₁, it.url ≠ some u) → item.url = some u →
      boostPriority st u = ({ st with queue := item :: (l₁ ++ l₂) }, true)) := by
  refine ⟨?_, ?_, ?_⟩
  · intro h
    unfold boostPriority
    cases hq : st.queue with
    | nil => rfl
    | cons x xs =>
      have hx : (x.url == some u) = false := by
        rw [beq_eq_false_iff_ne]
        exact h x (hq ▸ List.mem_cons_self _ _)
      have hext : extractFirst (fun it => it.url == some u) xs = none := by
        apply extractFirst_of_forall_not
        intro it hit
        rw [beq_eq_false_iff_ne]
        exact h it (hq ▸ List.mem_cons_of_mem _ hit)
      simp [hx, hext]
  · intro h
    unfold boostPriority
    cases hq : st.queue with
    | nil => rfl
    | cons x xs =>
      rw [hq] at h
      simp only [List.head?_cons, Option.map_some', Option.some.injEq] at h
      simp [beq_iff_eq.mpr h]
  · intro l₁ item l₂ hq hne hfirst hitem
    obtain ⟨x, xs, rfl⟩ := List.exists_cons_of_ne_nil hne
    unfold boostPriority
    rw [hq]
    have hx : (x.url == some u) = false := by
      rw [beq_eq_false_iff_ne]
      exact hfirst x (List.mem_cons_self _ _)
    have hext : extractFirst (fun it => it.url == some u) (xs ++ item :: l₂) =
        some (item, xs ++ l₂) :=
      extractFirst_append item l₂
        (fun it hit => by
          rw [beq_eq_false_iff_ne]
          exact hfirst it (List.mem_cons_of_mem _ hit))
        (beq_iff_eq.mpr hitem)
    simp [hx, hext]

/-- Witness for C5 at a concrete queue `[b, a]`: boosting `a` yields
`[a, b]` with the drain flag set. -/
theorem C5_boostPriority_spec_witness :
    boostPriority c5TailState "http://example.com/a" =
      ({ c5TailState with
         queue := [mkItem "http://example.com/a" 2, mkItem "http://example.com/b" 1] },
       true) := by
  have h := (C5_boostPriority_spec c5TailState "http://example.com/a").2.2
    [mkItem "http://example.com/b" 1] (mkItem "http://example.com/a" 2) []
    rfl (by decide) (by decide) rfl
  exact h

/-! ### C1 — buildQueue replaces the queue wholesale -/

/-- C1 counterexample: in the spec's own scenario (a `high` meta hint for
`/a` ingested at startup, then a build over two visible links), the hint
heads the queue before the build, but `buildQueue` replaces the queue
wholesale, so afterwards `/a` is gone and position 0 holds the topmost
visible link — not `/a` as the claim states. -/
theorem C1_hint_discarded_by_build :
    c1AfterHints.queue.head?.map QueueItem.url = some (some "http://example.com/a")
      ∧ c1AfterBuild.queue.map QueueItem.url =
        [some "http://example.com/b", some "http://example.com/c"]
      ∧ c1AfterBuild.queue.head?.map QueueItem.url ≠
        some (some "http://example.com/a") := by
  decide

theorem buildLinkItem_congr {st₁ st₂ : State} (env : DomEnv) (now : Nat)
    (hprocessed : st₁.processed = st₂.processed)
    (hprocessing : st₁.processing = st₂.processing)
    (hconfig : st₁.config = st₂.config)
    (hdata : st₁.dataUsed = st₂.dataUsed)
    (hci : st₁.connectionInfo = st₂.connectionInfo) :
    buildLinkItem st₁ env now = buildLinkItem st₂ env now := by
  funext link
  unfold buildLinkItem shouldPreload withinDataLimits
  rw [hprocessed, hprocessing, hconfig, hdata, hci]

/-- C1 (amended): `buildQueue` replaces the queue wholesale with the
DOM-derived list: every post-build queue item is DOM-sourced (so hint-seeded
entries still in the queue are discarded, and in the scenario `/a` cannot
occupy position 0), the result is independent of the prior queue contents,
and only in-flight state (`processing`, `inflight`) is untouched. -/
theorem C1_buildQueue_replaces (st₁ st₂ : State) (env : DomEnv) (now : Nat)
    (hprocessed : st₁.processed = st₂.processed)
    (hprocessing : st₁.processing = st₂.processing)
    (hconfig : st₁.config = st₂.config)
    (hdata : st₁.dataUsed = st₂.dataUsed)
    (hci : st₁.connectionInfo = st₂.connectionInfo) :
    (∀ item ∈ (buildQueue st₁ env now).queue, item.source = none) ∧
    (buildQueue st₁ env now).queue = (buildQueue st₂ env now).queue ∧
    (buildQueue st₁ env now).processing = st₁.processing ∧
    (buildQueue st₁ env now).inflight = st₁.inflight := by
  refine ⟨?_, ?_, rfl, rfl⟩
  · intro item hmem
    have hmem2 : item ∈ env.links.filterMap (buildLinkItem st₁ env now) :=
      (List.perm_insertionSort _ _).mem_iff.mp hmem
    obtain ⟨link, _, hsome⟩ := List.mem_filterMap.mp hmem2
    unfold buildLinkItem at hsome
    split at hsome
    · exact absurd hsome (by simp)
    · split_ifs at hsome
      · injection hsome with hsome
        subst hsome
        rfl
  · unfold buildQueue
    rw [buildLinkItem_congr env now hprocessed hprocessing hconfig hdata hci]

/-- Witness for C1 (amended) at the concrete scenario state: the build over
`c1AfterHints` (whose queue still holds the `/a` hint) yields the same queue
as the build over the fresh engine, and leaves `processing` untouched. -/
theorem C1_buildQueue_replaces_witness :
    (buildQueue c1AfterHints c1Env 10).queue =
      (buildQueue (initialState defaultConfig none) c1Env 10).queue ∧
    (buildQueue c1AfterHints c1Env 10).processing = c1AfterHints.processing :=
  ⟨(C1_buildQueue_replaces c1AfterHints (initialState defaultConfig none)
      c1Env 10 rfl rfl rfl rfl rfl).2.1,
   (C1_buildQueue_replaces c1AfterHints (initialState defaultConfig none)
      c1Env 10 rfl rfl rfl rfl rfl).2.2.1⟩

/-! ### C3 — cache size enforcement -/

/-- C3 counterexample: with `cacheMaxSize = 5` and exactly 5 entries, the
claim's eviction count `count - max + 10 = 10` exceeds the entry count;
the code evicts only 5 (the `slice` is capped), not 10. -/
theorem C3_eviction_count_counterexample :
    cache5.length = 5 ∧ cfgMax5.cacheMaxSize ≤ cache5.length ∧
    ((cache5.length : Int) - ((enforceCacheLimit cfgMax5 cache5).length : Int) ≠
      (cache5.length : Int) - (cfgMax5.cacheMaxSize : Int) + 10) := by
  decide

theorem perm_cons_eraseP_key {p : Option String × CacheEntry} :
    ∀ {m : List (Option String × CacheEntry)},
      (m.map Prod.fst).Nodup → p ∈ m →
      m.Perm (p :: m.eraseP (fun q => q.1 == p.1)) := by
  intro m
  induction m with
  | nil => intro _ hp; simp at hp
  | cons q ms ih =>
    intro hnd hp
    rcases List.mem_cons.mp hp with rfl | hp'
    · rw [List.eraseP_cons_of_pos (by simp)]
    · have hq : (q.1 == p.1) = false := by
        rw [beq_eq_false_iff_ne]
        intro he
        have h1 : q.1 ∈ ms.map Prod.fst := he ▸ List.mem_map_of_mem Prod.fst hp'
        exact (List.nodup_cons.mp (by simpa using hnd)).1 h1
      rw [List.eraseP_cons_of_neg (by simp [hq])]
      have hih := ih (List.nodup_cons.mp (by simpa using hnd)).2 hp'
      exact (hih.cons q).trans (List.Perm.swap p q _)

theorem foldl_delete_perm :
    ∀ (rem m rest : List (Option String × CacheEntry)),
      (m.map Prod.fst).Nodup → m.Perm (rem ++ rest) →
      (rem.foldl (fun acc p => mapDelete acc p.1) m).Perm rest := by
  intro rem
  induction rem with
  | nil =>
    intro m rest _ hperm
    simpa using hperm
  | cons p rem ih =>
    intro m rest hnd hperm
    have hpm : p ∈ m := hperm.mem_iff.mpr (by simp)
    have hspl := perm_cons_eraseP_key hnd hpm
    have hperm2 : (m.eraseP (fun q => q.1 == p.1)).Perm (rem ++ rest) := by
      have h2 := (hspl.symm.trans hperm).cons_inv
      exact h2
    have hnd2 : ((m.eraseP (fun q => q.1 == p.1)).map Prod.fst).Nodup :=
      hnd.sublist ((List.eraseP_sublist m).map Prod.fst)
    rw [List.foldl_cons]
    exact ih (mapDelete m p.1) rest hnd2 hperm2

theorem enforceCacheLimit_perm (cfg : Config)
    (cache : List (Option String × CacheEntry))
    (hnd : (cache.map Prod.fst).Nodup)
    (hge : cfg.cacheMaxSize ≤ cache.length) :
    (enforceCacheLimit cfg cache).Perm
      ((cache.insertionSort (fun a b => a.2.timestamp ≤ b.2.timestamp)).drop
        (cache.length - cfg.cacheMaxSize + 10)) := by
  unfold enforceCacheLimit
  rw [if_pos hge]
  apply foldl_delete_perm _ _ _ hnd
  rw [List.take_append_drop]
  exact (List.perm_insertionSort _ cache).symm

theorem enforceCacheLimit_length (cfg : Config)
    (cache : List (Option String × CacheEntry))
    (hnd : (cache.map Prod.fst).Nodup)
    (hge : cfg.cacheMaxSize ≤ cache.length) :
    (enforceCacheLimit cfg cache).length =
      cache.length - (cache.length - cfg.cacheMaxSize + 10) := by
  rw [(enforceCacheLimit_perm cfg cache hnd hge).length_eq, List.length_drop,
    (List.perm_insertionSort _ cache).length_eq]

theorem mapSet_length_le (m : List (Option String × CacheEntry))
    (k : Option String) (v : CacheEntry) :
    (mapSet m k v).length ≤ m.length + 1 := by
  unfold mapSet
  split_ifs
  · rw [List.length_map]
    omega
  · rw [List.length_append]
    simp

/-- C3 (amended): with `cacheMaxSize = N ≥ 1` and a cache with pairwise
distinct keys (as a JS `Map` guarantees), `storeInCache` leaves at most `N`
entries; at or above the cap, `enforceCacheLimit` evicts
`min(count, count − N + 10)` entries (the claim's exact `count − N + 10`
overshoots when `N < 10`), and every evicted entry is at least as old as
every survivor (oldest-first by timestamp ascending). -/
theorem C3_cache_limit (cfg : Config)
    (cache : List (Option String × CacheEntry)) (url : Option String)
    (content : String) (meta : Meta) (now : Nat)
    (hnd : (cache.map Prod.fst).Nodup) (hN : 1 ≤ cfg.cacheMaxSize) :
    (storeInCache cfg cache url content meta now).length ≤ cfg.cacheMaxSize ∧
    (cfg.cacheMaxSize ≤ cache.length →
      ((cache.length : Int) - ((enforceCacheLimit cfg cache).length : Int) =
        min (cache.length : Int)
          ((cache.length : Int) - (cfg.cacheMaxSize : Int) + 10)) ∧
      (∀ p ∈ cache, p ∉ enforceCacheLimit cfg cache →
        ∀ q ∈ enforceCacheLimit cfg cache, p.2.timestamp ≤ q.2.timestamp)) := by
  constructor
  · have ha : (enforceCacheLimit cfg cache).length + 1 ≤ cfg.cacheMaxSize := by
      by_cases hge : cfg.cacheMaxSize ≤ cache.length
      · rw [enforceCacheLimit_length cfg cache hnd hge]
        omega
      · unfold enforceCacheLimit
        rw [if_neg hge]
        omega
    exact le_trans (mapSet_length_le _ url _) ha
  · intro hge
    have hlen := enforceCacheLimit_length cfg cache hnd hge
    constructor
    · rw [hlen]
      omega
    · intro p hpc hpe q hqe
      have hperm := enforceCacheLimit_perm cfg cache hnd hge
      have hq2 : q ∈ (cache.insertionSort
          (fun a b => a.2.timestamp ≤ b.2.timestamp)).drop
          (cache.length - cfg.cacheMaxSize + 10) := hperm.mem_iff.mp hqe
      have hp2 : p ∈ (cache.insertionSort
          (fun a b => a.2.timestamp ≤ b.2.timestamp)).take
          (cache.length - cfg.cacheMaxSize + 10) := by
        have hps : p ∈ cache.insertionSort
            (fun a b => a.2.timestamp ≤ b.2.timestamp) :=
          (List.perm_insertionSort _ cache).mem_iff.mpr hpc
        rw [← List.take_append_drop (cache.length - cfg.cacheMaxSize + 10)
          (cache.insertionSort (fun a b => a.2.timestamp ≤ b.2.timestamp))]
          at hps
        rcases List.mem_append.mp hps with h1 | h2
        · exact h1
        · exact absurd (hperm.mem_iff.mpr h2) hpe
      have hsorted : List.Pairwise (fun a b => a.2.timestamp ≤ b.2.timestamp)
          ((cache.insertionSort (fun a b => a.2.timestamp ≤ b.2.timestamp)).take
              (cache.length - cfg.cacheMaxSize + 10) ++
            (cache.insertionSort (fun a b => a.2.timestamp ≤ b.2.timestamp)).drop
              (cache.length - cfg.cacheMaxSize + 10)) := by
        rw [List.take_append_drop]
        exact List.sorted_insertionSort _ cache
      exact (List.pairwise_append.mp hsorted).2.2 p hp2 q hq2

/-- Witness for C3 (amended) at `cacheMaxSize = 5` over five entries. -/
theorem C3_cache_limit_witness :
    (storeInCache cfgMax5 cache5 (some "f") "body"
      { timestamp := some 6, version := none, size := none } 6).length ≤
        cfgMax5.cacheMaxSize ∧
    ((cache5.length : Int) - ((enforceCacheLimit cfgMax5 cache5).length : Int) =
      min (cache5.length : Int)
        ((cache5.length : Int) - (cfgMax5.cacheMaxSize : Int) + 10)) :=
  ⟨(C3_cache_limit cfgMax5 cache5 (some "f") "body"
      { timestamp := some 6, version := none, size := none } 6
      (by decide) (by decide)).1,
   ((C3_cache_limit cfgMax5 cache5 (some "f") "body"
      { timestamp := some 6, version := none, size := none } 6
      (by decide) (by decide)).2 (by decide)).1⟩

/-! ### C6 — expiry gates reuse without evicting -/

theorem findKey_cons_hit (k : Option String) (v : CacheEntry)
    (l : List (Option String × CacheEntry)) :
    List.find? (fun p => p.1 == k) ((k, v) :: l) = some (k, v) :=
  List.find?_cons_of_pos _ (by simp)

theorem findKey_cons_miss {k : Option String} {p : Option String × CacheEntry}
    (h : (p.1 == k) = false) (l : List (Option String × CacheEntry)) :
    List.find? (fun q => q.1 == k) (p :: l) = List.find? (fun q => q.1 == k) l :=
  List.find?_cons_of_neg _ (by simp [h])

theorem mapGet_mapSet (k : Option String) (v : CacheEntry)
    (m : List (Option String × CacheEntry)) :
    mapGet (mapSet m k v) k = some v := by
  unfold mapSet mapGet
  by_cases h : m.any (fun p => p.1 == k)
  · rw [if_pos h]
    induction m with
    | nil => simp at h
    | cons p ps ih =>
      by_cases hp : (p.1 == k) = true
      · rw [List.map_cons, if_pos hp, findKey_cons_hit]
        rfl
      · have h2 : ps.any (fun q => q.1 == k) = true := by
          simpa [List.any_cons, hp] using h
        rw [List.map_cons, if_neg hp,
          findKey_cons_miss (by simpa using hp)]
        exact ih h2
  · rw [if_neg h]
    induction m with
    | nil =>
      rw [List.nil_append, findKey_cons_hit]
      rfl
    | cons p ps ih =>
      simp only [List.any_cons, Bool.or_eq_true, not_or] at h
      obtain ⟨hp, hps⟩ := h
      rw [List.cons_append, findKey_cons_miss (by simpa using hp)]
      exact ih hps

/-- C6: a cached response whose age exceeds `cacheExpiration` is still
physically present after the write, but the pre-fetch check in
`fetchAndCache` does not serve it: `isCacheExpired` is true, no cache hit
is counted, and the network path runs instead (counted as a miss). -/
theorem C6_expired_entry_not_served (st : State) (item : QueueItem)
    (body body2 : String) (meta : Meta) (storeNow now : Nat)
    (len : Option Nat) (rt : ℚ)
    (hexp : (now : Int) -
        ((cacheEntryOf st.config item.url body meta storeNow).timestamp : Int) >
      (st.config.cacheExpiration : Int)) :
    getCachedResponse (afterStore st item.url body meta storeNow) item.url =
      some (cacheEntryOf st.config item.url body meta storeNow) ∧
    isCacheExpired st.config now
      (cacheEntryOf st.config item.url body meta storeNow) = true ∧
    (fetchAndCacheRun (afterStore st item.url body meta storeNow) item now
      (FetchOutcome.httpOk len body2) rt).stats.cacheHits = st.stats.cacheHits ∧
    (fetchAndCacheRun (afterStore st item.url body meta storeNow) item now
      (FetchOutcome.httpOk len body2) rt).stats.cacheMisses =
        st.stats.cacheMisses + 1 := by
  have hget : getCachedResponse (afterStore st item.url body meta storeNow)
      item.url = some (cacheEntryOf st.config item.url body meta storeNow) := by
    unfold getCachedResponse afterStore storeInCache
    exact mapGet_mapSet _ _ _
  have hexp2 : isCacheExpired st.config now
      (cacheEntryOf st.config item.url body meta storeNow) = true :=
    decide_eq_true hexp
  have hget2 : getCachedResponse
      (bumpTotalRequests (afterStore st item.url body meta storeNow)) item.url =
      some (cacheEntryOf st.config item.url body meta storeNow) := hget
  have hexp3 : isCacheExpired
      (bumpTotalRequests (afterStore st item.url body meta storeNow)).config
      now (cacheEntryOf st.config item.url body meta storeNow) = true := hexp2
  refine ⟨hget, hexp2, ?_, ?_⟩ <;>
  · unfold fetchAndCacheRun
    simp only [hget2, hexp3, Bool.not_true, Bool.false_eq_true, if_false]
    simp [fetchNetwork, updateAvg, bumpTotalRequests, afterStore]

/-- Witness for C6 at concrete data: entry written at time 5, read one
millisecond past the 24h expiration. -/
theorem C6_expired_entry_not_served_witness :
    getCachedResponse
        (afterStore (initialState defaultConfig none) (some "http://example.com/x")
          "body" { timestamp := some 5, version := none, size := none } 5)
        (some "http://example.com/x") =
      some (cacheEntryOf defaultConfig (some "http://example.com/x") "body"
        { timestamp := some 5, version := none, size := none } 5) ∧
    isCacheExpired defaultConfig (5 + 24 * 60 * 60 * 1000 + 1)
      (cacheEntryOf defaultConfig (some "http://example.com/x") "body"
        { timestamp := some 5, version := none, size := none } 5) = true ∧
    (fetchAndCacheRun
        (afterStore (initialState defaultConfig none) (some "http://example.com/x")
          "body" { timestamp := some 5, version := none, size := none } 5)
        (mkItem "http://example.com/x" 1) (5 + 24 * 60 * 60 * 1000 + 1)
        (FetchOutcome.httpOk (some 3) "body2") 1).stats.cacheHits =
      (initialState defaultConfig none).stats.cacheHits ∧
    (fetchAndCacheRun
        (afterStore (initialState defaultConfig none) (some "http://example.com/x")
          "body" { timestamp := some 5, version := none, size := none } 5)
        (mkItem "http://example.com/x" 1) (5 + 24 * 60 * 60 * 1000 + 1)
        (FetchOutcome.httpOk (some 3) "body2") 1).stats.cacheMisses =
      (initialState defaultConfig none).stats.cacheMisses + 1 :=
  C6_expired_entry_not_served (initialState defaultConfig none)
    (mkItem "http://example.com/x" 1) "body" "body2"
    { timestamp := some 5, version := none, size := none } 5
    (5 + 24 * 60 * 60 * 1000 + 1) (some 3) 1 (by decide)

/-! ### C8 — zero data limit -/

/-- C8 counterexample: with `dataLimit = 0` the percentage is computed as
`(0/0 * 100).toFixed(2) + '%'`, which is `"NaN%"`, not `"0.00%"`. -/
theorem C8_percent_counterexample :
    dataUsagePercent (initialState cfgZeroData none) = "NaN%" ∧
    dataUsagePercent (initialState cfgZeroData none) ≠ "0.00%" := by
  decide

/-! ### Step frame and inversion lemmas -/

theorem sameCore_refl (a : State) : SameCore a a :=
  ⟨rfl, rfl, rfl, rfl, rfl, rfl, rfl, rfl, rfl⟩

theorem sameCore_trans {a b c : State} (h1 : SameCore a b) (h2 : SameCore b c) :
    SameCore a c := by
  obtain ⟨x1, x2, x3, x4, x5, x6, x7, x8, x9⟩ := h1
  obtain ⟨y1, y2, y3, y4, y5, y6, y7, y8, y9⟩ := h2
  exact ⟨x1.trans y1, x2.trans y2, x3.trans y3, x4.trans y4, x5.trans y5,
    x6.trans y6, x7.trans y7, x8.trans y8, x9.trans y9⟩

theorem foldl_sameCore {α : Type} {f : State → α → State}
    (hf : ∀ st a, SameCore (f st a) st) :
    ∀ (l : List α) (st : State), SameCore (l.foldl f st) st := by
  intro l
  induction l with
  | nil => intro st; exact sameCore_refl st
  | cons a l ih =>
    intro st
    exact sameCore_trans (ih (f st a)) (hf st a)

theorem processMetaHint_sameCore (base : URLRec) (now : Nat) (st : State)
    (m : MetaHint) : SameCore (processMetaHint base now st m) st := by
  unfold processMetaHint
  split
  · exact sameCore_refl st
  · dsimp only
    split_ifs <;> exact ⟨rfl, rfl, rfl, rfl, rfl, rfl, rfl, rfl, rfl⟩

theorem processJsonHint_sameCore (base : URLRec) (now : Nat) (st : State)
    (h : JsonHint) : SameCore (processJsonHint base now st h) st := by
  unfold processJsonHint
  split
  · exact sameCore_refl st
  · split_ifs <;> exact ⟨rfl, rfl, rfl, rfl, rfl, rfl, rfl, rfl, rfl⟩

theorem processJsonBlock_sameCore (base : URLRec) (now : Nat) (st : State)
    (b : JsonBlock) : SameCore (processJsonBlock base now st b) st := by
  unfold processJsonBlock
  split
  · exact sameCore_refl st
  · exact foldl_sameCore (processJsonHint_sameCore base now) _ st

theorem processSSRHints_sameCore (st : State) (env : DomEnv) (now : Nat) :
    SameCore (processSSRHints st env now) st := by
  unfold processSSRHints
  exact sameCore_trans
    (foldl_sameCore (processJsonBlock_sameCore env.base now) _ _)
    (foldl_sameCore (processMetaHint_sameCore env.base now) _ st)

theorem buildQueue_sameCore (st : State) (env : DomEnv) (now : Nat) :
    SameCore (buildQueue st env now) st := sameCore_refl st

theorem boostPriority_sameCore (st : State) (u : String) :
    SameCore (boostPriority st u).1 st := by
  unfold boostPriority
  split
  · exact sameCore_refl st
  · split_ifs
    · exact sameCore_refl st
    · split
      · exact sameCore_refl st
      · exact ⟨rfl, rfl, rfl, rfl, rfl, rfl, rfl, rfl, rfl⟩

theorem getEffectiveMaxConcurrent_congr {a b : State}
    (h1 : a.config = b.config) (h2 : a.connectionInfo = b.connectionInfo) :
    getEffectiveMaxConcurrent a = getEffectiveMaxConcurrent b := by
  unfold getEffectiveMaxConcurrent
  rw [h1, h2]

theorem processQueueIter_dispatched {st : State} {item : QueueItem}
    {st' : State}
    (h : processQueueIter st = some (DrainRes.dispatched item st')) :
    st.activeRequests < getEffectiveMaxConcurrent st ∧
    st'.activeRequests = st.activeRequests + 1 ∧
    st'.config = st.config ∧ st'.connectionInfo = st.connectionInfo ∧
    st'.processed = st.processed ∧ st'.dataUsed = st.dataUsed ∧
    st'.inflight = item :: st.inflight ∧
    st'.cache = st.cache ∧ st'.stats = st.stats ∧
    st.processed.contains item.url = false ∧
    (st.config.connectionAware && !withinDataLimits st) = false := by
  unfold processQueueIter at h
  split at h
  · exact absurd h (by simp)
  · split_ifs at h with hcap hskip hdata
    · exact absurd h (by simp)
    · exact absurd h (by simp)
    · simp only [Option.some.injEq, DrainRes.dispatched.injEq] at h
      obtain ⟨hitem, hst⟩ := h
      subst hitem
      subst hst
      simp only [Bool.or_eq_true, not_or] at hskip
      refine ⟨hcap, rfl, rfl, rfl, rfl, rfl, rfl, rfl, rfl, ?_, ?_⟩
      · simpa using hskip.2
      · simpa using hdata

theorem processQueueIter_skipped {st st' : State}
    (h : processQueueIter st = some (DrainRes.skipped st')) :
    SameCore st' st := by
  unfold processQueueIter at h
  split at h
  · exact absurd h (by simp)
  · split_ifs at h
    · simp only [Option.some.injEq, DrainRes.skipped.injEq] at h
      subst h
      exact sameCore_refl _
    · exact absurd h (by simp)
    · exact absurd h (by simp)

theorem processQueueIter_broke {st st' : State}
    (h : processQueueIter st = some (DrainRes.broke st')) :
    SameCore st' st := by
  unfold processQueueIter at h
  split at h
  · exact absurd h (by simp)
  · split_ifs at h
    · exact absurd h (by simp)
    · simp only [Option.some.injEq, DrainRes.broke.injEq] at h
      subst h
      exact sameCore_refl _
    · exact absurd h (by simp)

theorem fetchNetwork_frame (st : State) (item : QueueItem) (now : Nat)
    (oc : FetchOutcome) (rt : ℚ) :
    (fetchNetwork st item now oc rt).config = st.config ∧
    (fetchNetwork st item now oc rt).connectionInfo = st.connectionInfo ∧
    (fetchNetwork st item now oc rt).activeRequests = st.activeRequests ∧
    (fetchNetwork st item now oc rt).processed = st.processed ∧
    (fetchNetwork st item now oc rt).processing = st.processing ∧
    (fetchNetwork st item now oc rt).inflight = st.inflight ∧
    (fetchNetwork st item now oc rt).queue = st.queue := by
  cases oc <;> exact ⟨rfl, rfl, rfl, rfl, rfl, rfl, rfl⟩

theorem fetchAndCacheRun_frame (st : State) (item : QueueItem) (now : Nat)
    (oc : FetchOutcome) (rt : ℚ) :
    (fetchAndCacheRun st item now oc rt).config = st.config ∧
    (fetchAndCacheRun st item now oc rt).connectionInfo = st.connectionInfo ∧
    (fetchAndCacheRun st item now oc rt).activeRequests = st.activeRequests ∧
    (fetchAndCacheRun st item now oc rt).processed = st.processed ∧
    (fetchAndCacheRun st item now oc rt).processing = st.processing ∧
    (fetchAndCacheRun st item now oc rt).inflight = st.inflight := by
  unfold fetchAndCacheRun
  split
  · split_ifs
    · exact ⟨rfl, rfl, rfl, rfl, rfl, rfl⟩
    · obtain ⟨h1, h2, h3, h4, h5, h6, _⟩ :=
        fetchNetwork_frame (bumpTotalRequests st) item now oc rt
      exact ⟨h1, h2, h3, h4, h5, h6⟩
  · obtain ⟨h1, h2, h3, h4, h5, h6, _⟩ :=
      fetchNetwork_frame (bumpTotalRequests st) item now oc rt
    exact ⟨h1, h2, h3, h4, h5, h6⟩

theorem stepFn_complete_inv {st st' : State} {item : QueueItem} {now : Nat}
    {oc : FetchOutcome} {rt : ℚ}
    (h : stepFn st (Label.complete item now oc rt) = some st') :
    st.inflight.contains item = true ∧
    st'.config = st.config ∧ st'.connectionInfo = st.connectionInfo ∧
    st'.activeRequests = st.activeRequests - 1 ∧
    st'.processed = setAdd st.processed item.url ∧
    st'.inflight = st.inflight.erase item := by
  simp only [stepFn] at h
  split_ifs at h with hin
  · simp only [Option.some.injEq] at h
    subst h
    obtain ⟨h1, h2, h3, h4, h5, h6⟩ :=
      fetchAndCacheRun_frame { st with inflight := st.inflight.erase item }
        item now oc rt
    refine ⟨hin, h1, h2, ?_, ?_, h6⟩
    · show (fetchAndCacheRun _ item now oc rt).activeRequests - 1 = _
      rw [h3]
    · show setAdd (fetchAndCacheRun _ item now oc rt).processed item.url = _
      rw [h4]

theorem mem_setAdd_of_mem {s : List (Option String)} {x u : Option String}
    (h : u ∈ s) : u ∈ setAdd s x := by
  unfold setAdd
  split_ifs
  · exact h
  · exact List.mem_cons_of_mem _ h

/-- Every step is passive (changes at most the queue, hint-dedup set and
pause flag), a dispatch, or a completion. -/
theorem step_sameCore_or {st st' : State} {l : Label} (h : Step st l st') :
    (SameCore st' st ∧ ∀ item, l ≠ Label.dispatch item) ∨
    (∃ item, l = Label.dispatch item) ∨
    (∃ item now oc rt, l = Label.complete item now oc rt) := by
  cases l with
  | dispatch item => exact Or.inr (Or.inl ⟨item, rfl⟩)
  | complete item now oc rt => exact Or.inr (Or.inr ⟨item, now, oc, rt, rfl⟩)
  | drainSkip =>
    simp only [Step, stepFn] at h
    split at h
    · rename_i st1 heq
      injection h with h
      subst h
      exact Or.inl ⟨processQueueIter_skipped heq, fun item hc => by simp at hc⟩
    · exact absurd h (by simp)
  | drainBreak =>
    simp only [Step, stepFn] at h
    split at h
    · rename_i st1 heq
      injection h with h
      subst h
      exact Or.inl ⟨processQueueIter_broke heq, fun item hc => by simp at hc⟩
    · exact absurd h (by simp)
  | build env now =>
    injection h with h
    subst h
    exact Or.inl ⟨buildQueue_sameCore st env now, fun item hc => by simp at hc⟩
  | hints env now =>
    injection h with h
    subst h
    exact Or.inl ⟨processSSRHints_sameCore st env now, fun item hc => by simp at hc⟩
  | boost url =>
    injection h with h
    subst h
    exact Or.inl ⟨boostPriority_sameCore st url, fun item hc => by simp at hc⟩
  | pauseStep =>
    injection h with h
    subst h
    exact Or.inl ⟨⟨rfl, rfl, rfl, rfl, rfl, rfl, rfl, rfl, rfl⟩,
      fun item hc => by simp at hc⟩
  | resumeStep =>
    injection h with h
    subst h
    exact Or.inl ⟨⟨rfl, rfl, rfl, rfl, rfl, rfl, rfl, rfl, rfl⟩,
      fun item hc => by simp at hc⟩

/-- A dispatch step is exactly a dispatched drain iteration. -/
theorem stepFn_dispatch_inv {st st' : State} {item : QueueItem}
    (h : Step st (Label.dispatch item) st') :
    processQueueIter st = some (DrainRes.dispatched item st') := by
  simp only [Step, stepFn] at h
  split at h
  · rename_i i st1 heq
    split_ifs at h with hi
    injection h with h
    subst h
    subst hi
    exact heq
  · exact absurd h (by simp)

/-- Per-step monotonicity of the processed set. -/
theorem step_processed_mono {st st' : State} {l : Label} (h : Step st l st') :
    ∀ u ∈ st.processed, u ∈ st'.processed := by
  intro u hu
  cases l with
  | dispatch item =>
    simp only [Step, stepFn] at h
    split at h
    · rename_i i st1 heq
      split_ifs at h with hi
      injection h with h
      subst h
      subst hi
      rw [(processQueueIter_dispatched heq).2.2.2.2.1]
      exact hu
    · exact absurd h (by simp)
  | drainSkip =>
    simp only [Step, stepFn] at h
    split at h
    · rename_i st1 heq
      injection h with h
      subst h
      rw [(processQueueIter_skipped heq).1]
      exact hu
    · exact absurd h (by simp)
  | drainBreak =>
    simp only [Step, stepFn] at h
    split at h
    · rename_i st1 heq
      injection h with h
      subst h
      rw [(processQueueIter_broke heq).1]
      exact hu
    · exact absurd h (by simp)
  | complete item now oc rt =>
    rw [(stepFn_complete_inv h).2.2.2.2.1]
    exact mem_setAdd_of_mem hu
  | build env now =>
    injection h with h
    subst h
    exact hu
  | hints env now =>
    injection h with h
    subst h
    rw [(processSSRHints_sameCore st env now).1]
    exact hu
  | boost url =>
    injection h with h
    subst h
    rw [(boostPriority_sameCore st url).1]
    exact hu
  | pauseStep =>
    injection h with h
    subst h
    exact hu
  | resumeStep =>
    injection h with h
    subst h
    exact hu

/-! ### C2 — the concurrency counter never exceeds the effective cap -/

theorem step_cap_preserved {st st' : State} {l : Label} (h : Step st l st')
    (hle : st.activeRequests ≤ getEffectiveMaxConcurrent st) :
    st'.activeRequests ≤ getEffectiveMaxConcurrent st' := by
  rcases step_sameCore_or h with ⟨hc, _⟩ | ⟨item, rfl⟩ | ⟨item, now, oc, rt, rfl⟩
  · obtain ⟨_, _, _, _, hact, hcfg, hci, _, _⟩ := hc
    rw [hact, getEffectiveMaxConcurrent_congr hcfg hci]
    exact hle
  · obtain ⟨hcap, hact, hcfg, hci, _⟩ :=
      processQueueIter_dispatched (stepFn_dispatch_inv h)
    rw [hact, getEffectiveMaxConcurrent_congr hcfg hci]
    exact hcap
  · obtain ⟨_, hcfg, hci, hact, _, _⟩ := stepFn_complete_inv h
    rw [hact, getEffectiveMaxConcurrent_congr hcfg hci]
    exact le_trans (Nat.sub_le _ _) hle

/-- C2: at every state reachable from a fresh engine, `activeRequests` is at
most `getEffectiveMaxConcurrent()`: the drain loop increments only after
re-checking `activeRequests < getEffectiveMaxConcurrent()` and every fetch
completion decrements.  (The connection info is part of the engine state and
no engine transition rewrites it.) -/
theorem C2_activeRequests_le_cap (cfg : Config) (ci : Option ConnInfo)
    (st : State) (ls : List Label)
    (h : Steps (initialState cfg ci) ls st) :
    st.activeRequests ≤ getEffectiveMaxConcurrent st := by
  have key : ∀ (a : State) (ls : List Label) (b : State), Steps a ls b →
      a.activeRequests ≤ getEffectiveMaxConcurrent a →
      b.activeRequests ≤ getEffectiveMaxConcurrent b := by
    intro a ls b hs
    induction hs with
    | nil => exact id
    | cons hstep _ ih => intro hle; exact ih (step_cap_preserved hstep hle)
  exact key _ _ _ h (Nat.zero_le _)

/-- Witness for C2 along a concrete two-step run (hint ingestion, then the
initial queue build). -/
theorem C2_activeRequests_le_cap_witness :
    c1AfterBuild.activeRequests ≤ getEffectiveMaxConcurrent c1AfterBuild :=
  C2_activeRequests_le_cap defaultConfig none c1AfterBuild
    [Label.hints c1Env 5, Label.build c1Env 10]
    (Steps.cons
      (show Step (initialState defaultConfig none) (Label.hints c1Env 5)
        c1AfterHints from rfl)
      (Steps.cons
        (show Step c1AfterHints (Label.build c1Env 10) c1AfterBuild from rfl)
        (Steps.nil c1AfterBuild)))

/-! ### C4 — processed URLs are never fetched again -/

/-- C4: from any state in which `u` is processed, no later step of the
session dispatches a fetch for `u`: `buildQueue` skips processed URLs and
the drain loop discards dequeued items whose URL is processed (and the
processed set only grows along engine steps). -/
theorem C4_processed_never_redispatched (st st' : State) (ls : List Label)
    (u : Option String) (hu : u ∈ st.processed) (h : Steps st ls st') :
    ∀ item, Label.dispatch item ∈ ls → item.url ≠ u := by
  have key : ∀ (a : State) (ls : List Label) (b : State), Steps a ls b →
      u ∈ a.processed → ∀ item, Label.dispatch item ∈ ls → item.url ≠ u := by
    intro a ls b hs
    induction hs with
    | nil =>
      intro _ item him
      exact absurd him (by simp)
    | cons hstep _ ih =>
      intro hua item him
      rcases List.mem_cons.mp him with heq | htail
      · obtain ⟨_, _, _, _, _, _, _, _, _, hcont, _⟩ :=
          processQueueIter_dispatched (stepFn_dispatch_inv (heq ▸ hstep))
        intro he
        rw [he] at hcont
        simp at hcont
        exact hcont hua
      · exact ih (step_processed_mono hstep u hua) item htail
  exact key st ls st' h hu

/-- Witness for C4: with `/p` processed and `/b` queued, the dispatch of the
queued item along a concrete run cannot be a fetch of `/p`. -/
theorem C4_processed_never_redispatched_witness :
    some "http://example.com/p" ∈ c4Start.processed ∧
    (mkItem "http://example.com/b" 1).url ≠ some "http://example.com/p" :=
  ⟨by decide,
   C4_processed_never_redispatched c4Start c4After
     [Label.dispatch (mkItem "http://example.com/b" 1)]
     (some "http://example.com/p") (by decide)
     (Steps.cons
       (show stepFn c4Start (Label.dispatch (mkItem "http://example.com/b" 1)) =
         some c4After by decide)
       (Steps.nil c4After))
     (mkItem "http://example.com/b" 1) (by simp)⟩

/-! ### C8 (amended) — zero data limit blocks all dispatch, percent is NaN -/

theorem withinDataLimits_of_zero {st : State} (h1 : st.dataUsed = 0)
    (h2 : st.config.dataLimit = 0) : withinDataLimits st = false := by
  unfold withinDataLimits
  rw [h1, h2]
  simp

theorem dataUsagePercent_of_zero {st : State} (h1 : st.dataUsed = 0)
    (h2 : st.config.dataLimit = 0) : dataUsagePercent st = "NaN%" := by
  unfold dataUsagePercent jsDiv
  rw [h1, h2]
  simp [jsMul100, jsToFixed2]

/-- C8 (amended): with `dataLimit = 0` and `connectionAware` on,
`withinDataLimits` is `false` from the start, no fetch is ever dispatched,
`dataUsed` stays `0`, and `getStats().dataUsagePercent` is `"NaN%"`
throughout the session (not `"0.00%"`: `0/0` is `NaN`). -/
theorem C8_data_limit_zero (cfg : Config) (ci : Option ConnInfo) (st : State)
    (ls : List Label) (hdl : cfg.dataLimit = 0)
    (hca : cfg.connectionAware = true)
    (h : Steps (initialState cfg ci) ls st) :
    withinDataLimits st = false ∧ st.dataUsed = 0 ∧
    dataUsagePercent st = "NaN%" ∧
    (∀ item, Label.dispatch item ∉ ls) := by
  have key : ∀ (a : State) (ls : List Label) (b : State), Steps a ls b →
      a.dataUsed = 0 → a.inflight = [] → a.config = cfg →
      b.dataUsed = 0 ∧ b.inflight = [] ∧ b.config = cfg ∧
        ∀ item, Label.dispatch item ∉ ls := by
    intro a ls b hs
    induction hs with
    | nil =>
      intro h1 h2 h3
      exact ⟨h1, h2, h3, fun item him => by simp at him⟩
    | cons hstep _ ih =>
      intro h1 h2 h3
      rcases step_sameCore_or hstep with ⟨hc, hnotd⟩ | ⟨item, rfl⟩
        | ⟨item, now, oc, rt, rfl⟩
      · obtain ⟨_, _, hdu, hinf, _, hcfg, _, _, _⟩ := hc
        obtain ⟨k1, k2, k3, k4⟩ :=
          ih (hdu.trans h1) (hinf.trans h2) (hcfg.trans h3)
        refine ⟨k1, k2, k3, fun item him => ?_⟩
        rcases List.mem_cons.mp him with heq | htail
        · exact (hnotd item heq.symm).elim
        · exact k4 item htail
      · obtain ⟨_, _, _, _, _, _, _, _, _, _, hgate⟩ :=
          processQueueIter_dispatched (stepFn_dispatch_inv hstep)
        rw [withinDataLimits_of_zero h1 (by rw [h3, hdl]), h3, hca] at hgate
        exact absurd hgate (by simp)
      · have hin := (stepFn_complete_inv hstep).1
        rw [h2] at hin
        exact absurd hin (by simp)
  obtain ⟨k1, k2, k3, k4⟩ := key _ _ _ h rfl rfl rfl
  exact ⟨withinDataLimits_of_zero k1 (by rw [k3, hdl]), k1,
    dataUsagePercent_of_zero k1 (by rw [k3, hdl]), k4⟩

/-- Witness for C8 along a concrete run: a queue build under a zero data
limit (the build itself skips every link as over-budget). -/
theorem C8_data_limit_zero_witness :
    withinDataLimits (buildQueue (initialState cfgZeroData none) c1Env 10) =
      false ∧
    (buildQueue (initialState cfgZeroData none) c1Env 10).dataUsed = 0 ∧
    dataUsagePercent (buildQueue (initialState cfgZeroData none) c1Env 10) =
      "NaN%" ∧
    (∀ item, Label.dispatch item ∉ [Label.build c1Env 10]) :=
  C8_data_limit_zero cfgZeroData none _ [Label.build c1Env 10] rfl rfl
    (Steps.cons
      (show Step (initialState cfgZeroData none) (Label.build c1Env 10)
        (buildQueue (initialState cfgZeroData none) c1Env 10) from rfl)
      (Steps.nil _))

/-- Witness for C9 at a concrete base and input. -/
theorem C9_normalizeUrl_spec_witness :
    canonical cwBase = true ∧
    normalizeUrl cwBase "/a?x=1#frag" = some "http://example.com/a?x=1" ∧
    ((∃ v, parseAbs ("http://example.com/a?x=1" : String).data = some v ∧
        v.fragment = none) ∧
      normalizeUrl cwBase "http://example.com/a?x=1" =
        some "http://example.com/a?x=1") :=
  ⟨by decide, by decide,
    C9_normalizeUrl_spec (by decide) "/a?x=1#frag" "http://example.com/a?x=1"
      (by decide)⟩

end Ghostloader
